import Mathlib

/-!
Verification of the rclone-precache core against its design document.

The development shallowly embeds the two algorithmic components of the
repository:

* the disk-usage sizer (`size.go`: `GetAllocatedSize`, `checkCache`,
  `calculateSize` with its `filepath.WalkDir` walk), and
* the cache warmer and progress tracker (`cache` source file:
  `cacheFile` segment planning, `readFileSegment` read loop,
  `updateSpeed` / `safeUpdate` sliding-window throughput), plus the
  `handlePrecache` duplicate-job guard keyed by `filepath.Join`.

Conventions of the embedding:

* Go `int64` byte counts and offsets are modelled as `ℕ` where the source
  only ever holds non-negative values (file sizes, offsets, block counts);
  the one place the source computes a possibly negative intermediate
  (`startPos = i*segmentSize - overlapSize`, clamped to 0) is modelled by
  truncated `ℕ` subtraction, which equals the source's clamp.  Cache sizes
  are modelled as `ℤ` because `checkCache` uses `-1` as a miss sentinel.
* `time.Time`/`time.Duration` are nanosecond counts (`ℕ` for the sizer,
  `ℤ` for the speed window).  `float64` throughput is modelled as `ℚ`,
  which preserves sign and the zero/positivity tests the source performs.
* `math.Min(float64(segmentSize)/20, 1024*1024)` is modelled as
  `min (segmentSize / 20) 1048576` on `ℕ`: whenever the quotient is below
  the 1 MiB clamp it is below 2^21, well within the range where the
  float64 division followed by `int64` truncation coincides with natural
  floor division, and above the clamp the `min` picks 1048576 either way.
* A Go map is an association list updated by consing (lookup sees the
  newest binding); a filesystem is a partial map from absolute paths to
  stat results, directory subtrees carry their `ReadDir` listing.
* `os.File.Read` is modelled as the canonical full read: at offset `pos`
  of a file of size `fileSize` a request for `b` bytes yields
  `min b (fileSize - pos)` bytes, and end-of-file (`io.EOF`) exactly when
  `pos ≥ fileSize`.  A single wall-clock instant `now` is used for one
  call, and the goroutine scheduling of `cacheFile` is modelled by
  summing the per-segment byte counts, which is what the shared
  `TotalBytesRead` accumulates.
-/

/-! ## Disk-usage sizer (`size.go`) -/

/-- `DirectorySizer.maxAge`: 5 minutes, in nanoseconds (`5 * time.Minute`). -/
def maxAge : ℕ := 300000000000

/-- `SizeCache` (size.go): a memoized size with its write timestamp. -/
structure SizeCache where
  size : ℤ
  timestamp : ℕ
deriving DecidableEq

/-- The parts of `syscall.Stat_t` the sizer reads: logical size and
512-byte block count.  Block counts reported by the kernel are
non-negative, hence `ℕ`. -/
structure Stat where
  size : ℕ
  blocks : ℕ
deriving DecidableEq

mutual
/-- A filesystem subtree as enumerated by `filepath.WalkDir`: a regular
file carries the result of `syscall.Stat` on it (`none` = stat failure),
a directory carries whether `syscall.Stat` succeeds on it plus its
listing in enumeration order. -/
inductive FSTree where
  | file : Option Stat → FSTree
  | dir : Bool → FSList → FSTree

/-- A directory listing: named entries in `ReadDir` enumeration order. -/
inductive FSList where
  | nil : FSList
  | cons : String → FSTree → FSList → FSList
end

/-- Concatenation of directory listings (used to talk about one listing
with an entry singled out). -/
def fslAppend : FSList → FSList → FSList
  | .nil, ys => ys
  | .cons n t xs, ys => .cons n t (fslAppend xs ys)

/-- State threaded through the `filepath.WalkDir` callback in
`calculateSize`: the running `totalSize` and the sizer's cache map. -/
structure WalkSt where
  total : ℤ
  cache : List (String × SizeCache)
deriving DecidableEq

/-- `DirectorySizer.checkCache` (size.go): returns the stored size of a
fresh entry and `-1` for a missing or expired one.  `time.Since` is
`now - timestamp`; a clock that went backwards yields a negative
duration in Go, which also compares `< maxAge`, matching truncated `ℕ`
subtraction. -/
def checkCache (cache : List (String × SizeCache)) (p : String) (now : ℕ) : ℤ :=
  match List.lookup p cache with
  | some e => if now - e.timestamp < maxAge then e.size else -1
  | none => -1

/-- One invocation of the `filepath.WalkDir` callback in
`calculateSize` on path `p`.  `info` is `some blocks` when
`syscall.Stat(p)` succeeds and reports a non-directory, and `none` when
the stat fails or reports a directory (both of which add nothing).  A
cache hit adds the memoized value and — faithfully to the source, which
returns `nil` rather than `filepath.SkipDir` — does not stop the walk
from descending. -/
def visitEntry (now : ℕ) (p : String) (info : Option ℕ) (s : WalkSt) : WalkSt :=
  let c := checkCache s.cache p now
  if 0 ≤ c then ⟨s.total + c, s.cache⟩
  else
    match info with
    | some blocks => ⟨s.total + (blocks * 512 : ℕ), (p, ⟨(blocks * 512 : ℕ), now⟩) :: s.cache⟩
    | none => s

/-- The `filepath.WalkDir` traversal inside `calculateSize`, over one
directory listing: each entry at path `base ++ "/" ++ name` is visited
(callback invocation), and a directory entry is descended into —
immediately, depth-first, in enumeration order — before its later
siblings.  Descending is unconditional because the callback only ever
returns `nil` for an entry it could visit (a cache hit or a failed stat
does not return `filepath.SkipDir`). -/
def walkList (now : ℕ) (base : String) (l : FSList) (s : WalkSt) : WalkSt :=
  match l with
  | .nil => s
  | .cons n (.file st?) rest =>
    walkList now base rest (visitEntry now (base ++ "/" ++ n) (Option.map Stat.blocks st?) s)
  | .cons n (.dir _ ch) rest =>
    walkList now base rest
      (walkList now (base ++ "/" ++ n) ch (visitEntry now (base ++ "/" ++ n) none s))

/-- `filepath.WalkDir(path, fn)` on the subtree rooted at `p`: the root
itself is visited first, then (for a directory) its listing. -/
def walkNode (now : ℕ) (p : String) (t : FSTree) (s : WalkSt) : WalkSt :=
  match t with
  | .file st? => visitEntry now p (Option.map Stat.blocks st?) s
  | .dir _ ch => walkList now p ch (visitEntry now p none s)

/-- `DirectorySizer.calculateSize` (size.go): stat failure yields 0, a
non-directory yields `Blocks * 512`, a directory is walked with
`filepath.WalkDir`, threading the cache. -/
def calculateSize (fs : String → Option FSTree) (now : ℕ) (p : String)
    (cache : List (String × SizeCache)) : ℤ × List (String × SizeCache) :=
  match fs p with
  | none => (0, cache)
  | some (.file none) => (0, cache)
  | some (.file (some st)) => ((st.blocks * 512 : ℕ), cache)
  | some (.dir false _) => (0, cache)
  | some (.dir true ch) =>
    let s := walkNode now p (.dir true ch) ⟨0, cache⟩
    (s.total, s.cache)

/-- `DirectorySizer.GetAllocatedSize` (size.go).  `abs` models
`filepath.Abs` (`none` = resolution failure, returning 0 before any
caching).  The third component records whether the call reached
`calculateSize`, i.e. touched the filesystem. -/
def GetAllocatedSize (abs : String → Option String) (fs : String → Option FSTree)
    (now : ℕ) (cache : List (String × SizeCache)) (path : String) :
    ℤ × List (String × SizeCache) × Bool :=
  match abs path with
  | none => (0, cache, false)
  | some ap =>
    let c := checkCache cache ap now
    if 0 ≤ c then (c, cache, false)
    else
      let r := calculateSize fs now ap cache
      (r.1, (ap, ⟨r.1, now⟩) :: r.2, true)

/-- Invariant of the sizer cache: every stored size is non-negative. -/
def CacheInv (cache : List (String × SizeCache)) : Prop :=
  ∀ e ∈ cache, (0 : ℤ) ≤ e.2.size

/-! ## Segment planner and cache warmer (`cacheFile`, `readFileSegment`) -/

/-- `segmentSize := fileSize / int64(threads)` in `cacheFile`. -/
def segmentSize (fileSize threads : ℕ) : ℕ := fileSize / threads

/-- `overlapSize := int64(math.Min(float64(segmentSize)/20, 1024*1024))`
in `cacheFile` (see the header note on the float64 model). -/
def overlapSize (s : ℕ) : ℕ := min (s / 20) 1048576

/-- Thread `i` start offset in `cacheFile`: 0 for the first thread,
otherwise `i*segmentSize - overlapSize` clamped at 0 (truncated `ℕ`
subtraction is exactly the source's negative clamp). -/
def segStart (fileSize threads i : ℕ) : ℕ :=
  if i = 0 then 0
  else i * segmentSize fileSize threads - overlapSize (segmentSize fileSize threads)

/-- Thread `i` end offset in `cacheFile`: `(i+1)*segmentSize` except for
the last thread, which runs to `fileSize`. -/
def segEnd (fileSize threads i : ℕ) : ℕ :=
  if i < threads - 1 then (i + 1) * segmentSize fileSize threads else fileSize

/-- The thread-count reduction at the top of `cacheFile`:
`if fileSize < int64(cm.chunkSize*threads) { threads = 1 }`. -/
def effThreads (chunkSize threads fileSize : ℕ) : ℕ :=
  if fileSize < chunkSize * threads then 1 else threads

/-- The read loop of `readFileSegment`, counting the bytes it reads (the
amounts it accumulates into `bytesRead` and flushes via `safeUpdate`).
Each iteration at `pos < endPos` requests
`bytesToRead = min chunkSize (endPos - pos)` bytes and receives
`min bytesToRead (fileSize - pos)`, breaking on `io.EOF`
(`pos ≥ fileSize`).  The fuel argument is an upper bound on the number
of iterations (each iteration advances `pos` by at least one byte when
`chunkSize ≥ 1`); with `chunkSize = 0` the Go loop would not terminate,
and the model returns the bytes read so far. -/
def readLoop (chunkSize fileSize endPos : ℕ) : ℕ → ℕ → ℕ
  | 0, _ => 0
  | fuel + 1, pos =>
    if pos < endPos then
      if pos < fileSize then
        let n := min (min chunkSize (endPos - pos)) (fileSize - pos)
        if 0 < n then n + readLoop chunkSize fileSize endPos fuel (pos + n) else 0
      else 0
    else 0

/-- `CacheManager.readFileSegment`: total bytes read (and hence reported
to the progress tracker) for one segment `[startPos, endPos)`. -/
def readFileSegment (chunkSize fileSize startPos endPos : ℕ) : ℕ :=
  readLoop chunkSize fileSize endPos (endPos - startPos) startPos

/-- `CacheManager.cacheFile`: cumulative bytes read over all segment
workers for one file — the total added to `TotalBytesRead` when no read
errors occur. -/
def cacheFile (chunkSize threads fileSize : ℕ) : ℕ :=
  let t := effThreads chunkSize threads fileSize
  ∑ i ∈ Finset.range t,
    readFileSegment chunkSize fileSize (segStart fileSize t i) (segEnd fileSize t i)

/-- What `syscall.Stat` reports about one regular file: its logical size
(`Stat_t.Size`, which `fileInfo.Size()` in `cacheFile` returns) and its
allocated block count (`Stat_t.Blocks`). -/
structure FileMeta where
  size : ℕ
  blocks : ℕ

/-- The allocated on-disk size the sizer reports for a regular file
(`calculateSize`, non-directory branch): `Blocks * 512`. -/
def allocatedSize (f : FileMeta) : ℕ := f.blocks * 512

/-! ## Progress tracker (`updateSpeed`, `safeUpdate`) -/

/-- `SpeedWindow`: one throughput observation (bytes, nanosecond
timestamp). -/
structure SpeedWindow where
  bytesRead : ℤ
  timestamp : ℤ
deriving DecidableEq

/-- `CacheProgress`, without the scratch read buffer and mutex. -/
structure CacheProgress where
  currentSpeed : ℚ
  totalBytesRead : ℤ
  totalSize : ℤ
  isComplete : Bool
  cachedSize : ℤ
  speedWindows : List SpeedWindow
deriving DecidableEq

/-- The `for _, window := range cp.speedWindows` loop of `updateSpeed`:
left-to-right, appending retained windows and summing their bytes. -/
def collectWindows (cutoff : ℤ) (ws : List SpeedWindow) : List SpeedWindow × ℤ :=
  ws.foldl
    (fun acc w => if cutoff < w.timestamp then (acc.1 ++ [w], acc.2 + w.bytesRead) else acc)
    ([], 0)

/-- `CacheProgress.updateSpeed`: append the new observation, retain the
windows strictly newer than `currentTime - 5s` (`Time.After` is strict),
and recompute the speed as retained bytes over the span back to the
oldest retained window whenever that span is positive. -/
def updateSpeed (cp : CacheProgress) (bytesRead : ℤ) (currentTime : ℤ) : CacheProgress :=
  let ws := cp.speedWindows ++ [⟨bytesRead, currentTime⟩]
  let cutoff := currentTime - 5000000000
  let vt := collectWindows cutoff ws
  let speed :=
    match vt.1 with
    | [] => cp.currentSpeed
    | w0 :: _ =>
      let timeRange : ℚ := ((currentTime - w0.timestamp : ℤ) : ℚ) / 1000000000
      if 0 < timeRange then (vt.2 : ℚ) / timeRange else cp.currentSpeed
  ⟨speed, cp.totalBytesRead, cp.totalSize, cp.isComplete, cp.cachedSize, vt.1⟩

/-- `CacheProgress.safeUpdate`: under the job mutex, bump
`TotalBytesRead`, run `updateSpeed`, bump `CachedSize`. -/
def safeUpdate (cp : CacheProgress) (bytesRead : ℤ) (currentTime : ℤ) : CacheProgress :=
  let cp1 : CacheProgress :=
    ⟨cp.currentSpeed, cp.totalBytesRead + bytesRead, cp.totalSize,
      cp.isComplete, cp.cachedSize, cp.speedWindows⟩
  let cp2 := updateSpeed cp1 bytesRead currentTime
  ⟨cp2.currentSpeed, cp2.totalBytesRead, cp2.totalSize,
    cp2.isComplete, cp2.cachedSize + bytesRead, cp2.speedWindows⟩

/-- The observations `updateSpeed(bytesDelta, now)` retains, as the
design document words it: the appended window list, filtered to the
entries strictly newer than `now - 5s`. -/
def retainedWindows (cp : CacheProgress) (bytesRead currentTime : ℤ) : List SpeedWindow :=
  (cp.speedWindows ++ [SpeedWindow.mk bytesRead currentTime]).filter
    (fun w => currentTime - 5000000000 < w.timestamp)

/-! ## Path resolution and the duplicate-job guard (`handlePrecache`) -/

/-- Split a character list at every `/` (the element decomposition Go's
`path.Clean` iterates over; same semantics as splitting the string on
the single character `/`). -/
def splitSlashAux : List Char → List Char → List String
  | [], cur => [String.mk cur.reverse]
  | c :: cs, cur =>
    if c = '/' then String.mk cur.reverse :: splitSlashAux cs []
    else splitSlashAux cs (c :: cur)

/-- Split a path into its `/`-separated elements. -/
def splitSlash (s : String) : List String := splitSlashAux s.data []

/-- Join path elements back with `/` separators. -/
def joinSlash : List String → String
  | [] => ""
  | [x] => x
  | x :: xs => x ++ "/" ++ joinSlash xs

/-- Whether the path is rooted (its first byte is `/`). -/
def startsWithSlash (s : String) : Bool :=
  match s.data with
  | [] => false
  | c :: _ => c = '/'

/-- The element loop of Go's `path.Clean` (unix `filepath.Clean`):
`acc` holds the output elements in reverse.  Empty and `"."` elements
are dropped; `".."` pops a previous non-`".."` element, is dropped at
the root of a rooted path, and is kept otherwise. -/
def cleanAux (rooted : Bool) : List String → List String → List String
  | acc, [] => acc.reverse
  | acc, c :: cs =>
    if c = "" ∨ c = "." then cleanAux rooted acc cs
    else if c = ".." then
      match acc with
      | [] => if rooted then cleanAux rooted [] cs else cleanAux rooted [".."] cs
      | a :: as => if a = ".." then cleanAux rooted (".." :: a :: as) cs else cleanAux rooted as cs
    else cleanAux rooted (c :: acc) cs

/-- Go `filepath.Clean` on unix paths. -/
def cleanPath (s : String) : String :=
  let rooted := startsWithSlash s
  let comps := cleanAux rooted [] (splitSlash s)
  let body := joinSlash comps
  if rooted then "/" ++ body
  else if body = "" then "." else body

/-- Go `filepath.Join` of two elements: empty elements are skipped and
the result is cleaned. -/
def joinPath (a b : String) : String :=
  if a = "" then cleanPath b
  else if b = "" then cleanPath a
  else cleanPath (a ++ "/" ++ b)

/-- Outcome of `Server.handlePrecache`: HTTP 200 on start, HTTP 400 with
the "already in progress" message, HTTP 500 when `os.Stat` fails inside
`StartProgress`. -/
inductive PrecacheOutcome where
  | started
  | alreadyInProgress
  | statFailed
deriving DecidableEq

/-- The `CacheProgress` that `StartProgress` installs in the active map:
zeroed counters with `TotalSize` from the sizer. -/
def newProgress (totalSize : ℤ) : CacheProgress := ⟨0, 0, totalSize, false, 0, []⟩

/-- `Server.handlePrecache` composed with the synchronous part of
`CacheManager.StartProgress`: resolve the request path against the mount
point with `filepath.Join`, refuse when the active map already holds the
resolved key, otherwise stat the root and install a fresh job.  `statOk`
models `os.Stat` success and `totalSize` the
`sizer.GetAllocatedSize(sourcePath)` result; the detached warming
goroutine is not part of the synchronous state change. -/
def handlePrecache (mountPath : String) (statOk : String → Bool) (totalSize : ℤ)
    (active : List (String × CacheProgress)) (reqPath : String) :
    List (String × CacheProgress) × PrecacheOutcome :=
  let sourcePath := joinPath mountPath reqPath
  if (List.lookup sourcePath active).isSome then (active, .alreadyInProgress)
  else if statOk sourcePath then ((sourcePath, newProgress totalSize) :: active, .started)
  else (active, .statFailed)

/-! ## Concrete fixtures used by witnesses and counterexamples -/

/-- A `filepath.Abs` that succeeds and leaves (already absolute) paths
unchanged. -/
def absSame : String → Option String := fun s => some s

/-- A filesystem where `/a` is a 1-block regular file (512 allocated
bytes). -/
def fsOld : String → Option FSTree :=
  fun s => if s = "/a" then some (.file (some ⟨0, 1⟩)) else none

/-- The same path after the file grew to 2 blocks (1024 allocated
bytes). -/
def fsNew : String → Option FSTree :=
  fun s => if s = "/a" then some (.file (some ⟨0, 2⟩)) else none

/-- A sparse file: logical length 1 GiB, 8 allocated 512-byte blocks. -/
def fsSparse : String → Option FSTree :=
  fun s => if s = "/s" then some (.file (some ⟨1073741824, 8⟩)) else none

/-- A filesystem on which every stat fails. -/
def fsGone : String → Option FSTree := fun _ => none

/-- Sizer cache state after one `GetAllocatedSize` call on `/a` against
`fsOld` at time 0, starting from an empty cache. -/
def stAfterFirst : List (String × SizeCache) := (GetAllocatedSize absSame fsOld 0 [] "/a").2.1

/-- A one-entry directory listing: a 2-block file named `a`. -/
def fsl1 : FSList := .cons "a" (.file (some ⟨2, 2⟩)) .nil

/-- A one-entry directory listing: a 3-block file named `b`. -/
def fsl2 : FSList := .cons "b" (.file (some ⟨3, 3⟩)) .nil

/-! ## Helper lemmas: the segment read loop and partition arithmetic -/

/-- With a positive chunk size, the read loop on `[pos, endPos)` reads
exactly the bytes between `pos` and `min endPos fileSize`. -/
theorem readLoop_eq (chunkSize fileSize endPos : ℕ) (hc : 1 ≤ chunkSize) :
    ∀ fuel pos, endPos - pos ≤ fuel →
      readLoop chunkSize fileSize endPos fuel pos = min endPos fileSize - pos := by
  intro fuel
  induction fuel with
  | zero =>
    intro pos h
    simp only [readLoop]
    omega
  | succ k ih =>
    intro pos h
    simp only [readLoop]
    split_ifs with h1 h2 h3
    · rw [ih (pos + min (min chunkSize (endPos - pos)) (fileSize - pos)) (by omega)]
      omega
    · omega
    · omega
    · omega

/-- Every segment end offset is at most the file size. -/
theorem segEnd_le (fileSize threads i : ℕ) : segEnd fileSize threads i ≤ fileSize := by
  unfold segEnd
  split_ifs with h
  · have h1 : i + 1 ≤ threads := by omega
    calc (i + 1) * segmentSize fileSize threads
        ≤ threads * segmentSize fileSize threads := Nat.mul_le_mul_right _ h1
      _ = fileSize / threads * threads := mul_comm _ _
      _ ≤ fileSize := Nat.div_mul_le_self fileSize threads
  · exact le_rfl

/-- Every segment start offset is at most its nominal boundary
`i * segmentSize`. -/
theorem segStart_le_nominal (fileSize threads i : ℕ) :
    segStart fileSize threads i ≤ i * segmentSize fileSize threads := by
  unfold segStart
  split_ifs with h
  · simp
  · exact Nat.sub_le _ _

/-- The nominal segment lengths `segEnd i - i * segmentSize` sum to the
whole file size. -/
theorem sum_nominal_lengths (fileSize threads : ℕ) (ht : 1 ≤ threads) :
    ∑ i ∈ Finset.range threads,
      (segEnd fileSize threads i - i * segmentSize fileSize threads) = fileSize := by
  obtain ⟨k, rfl⟩ : ∃ k, threads = k + 1 := ⟨threads - 1, by omega⟩
  rw [Finset.sum_range_succ]
  have hmid : ∀ i ∈ Finset.range k,
      segEnd fileSize (k + 1) i - i * segmentSize fileSize (k + 1) =
        segmentSize fileSize (k + 1) := by
    intro i hi
    simp only [Finset.mem_range] at hi
    unfold segEnd
    rw [if_pos (by omega), Nat.succ_mul]
    exact Nat.add_sub_cancel_left _ _
  have hlast : segEnd fileSize (k + 1) k = fileSize := by
    unfold segEnd
    rw [if_neg (by omega)]
  have hks : (k + 1) * segmentSize fileSize (k + 1) ≤ fileSize := by
    calc (k + 1) * segmentSize fileSize (k + 1)
        = fileSize / (k + 1) * (k + 1) := mul_comm _ _
      _ ≤ fileSize := Nat.div_mul_le_self fileSize (k + 1)
  have hks' : k * segmentSize fileSize (k + 1) ≤ fileSize :=
    le_trans (Nat.mul_le_mul_right _ (by omega)) hks
  rw [Finset.sum_congr rfl hmid, Finset.sum_const, Finset.card_range, smul_eq_mul, hlast]
  exact Nat.add_sub_cancel' hks'

/-- Each segment worker reads at least its nominal length. -/
theorem readFileSegment_ge_nominal (chunkSize fileSize threads i : ℕ) (hc : 1 ≤ chunkSize) :
    segEnd fileSize threads i - i * segmentSize fileSize threads ≤
      readFileSegment chunkSize fileSize (segStart fileSize threads i)
        (segEnd fileSize threads i) := by
  rw [readFileSegment, readLoop_eq chunkSize fileSize _ hc _ _ le_rfl,
    min_eq_left (segEnd_le fileSize threads i)]
  exact Nat.sub_le_sub_left (segStart_le_nominal fileSize threads i) _

/-- The total bytes `cacheFile` reads are at least the file size,
whatever thread count it runs with. -/
theorem cacheFile_ge_size (chunkSize threads fileSize : ℕ)
    (hc : 1 ≤ chunkSize) (ht : 1 ≤ threads) :
    fileSize ≤ cacheFile chunkSize threads fileSize := by
  unfold cacheFile
  have ht1 : 1 ≤ effThreads chunkSize threads fileSize := by
    unfold effThreads
    split_ifs <;> omega
  calc fileSize
      = ∑ i ∈ Finset.range (effThreads chunkSize threads fileSize),
          (segEnd fileSize (effThreads chunkSize threads fileSize) i -
            i * segmentSize fileSize (effThreads chunkSize threads fileSize)) :=
        (sum_nominal_lengths fileSize _ ht1).symm
    _ ≤ ∑ i ∈ Finset.range (effThreads chunkSize threads fileSize),
          readFileSegment chunkSize fileSize
            (segStart fileSize (effThreads chunkSize threads fileSize) i)
            (segEnd fileSize (effThreads chunkSize threads fileSize) i) :=
        Finset.sum_le_sum fun i _ => readFileSegment_ge_nominal chunkSize fileSize _ i hc

/-- Claim C1, counterexample: the claim quantifies over the ALLOCATED
size `S = Blocks * 512`.  A 1-byte file occupying one 4 KiB block
(8 blocks of 512 bytes, as `syscall.Stat` reports) has allocated size
4096, but `cacheFile` reads up to the logical size `Stat().Size() = 1`
and reports 1 byte — an under-count relative to `S` with no I/O error
involved (chunk size 1 MiB, one thread). -/
theorem C1_counterexample :
    ¬ (allocatedSize ⟨1, 8⟩ ≤ cacheFile 1048576 1 (FileMeta.size ⟨1, 8⟩)) := by
  decide

/-- Claim C1 (amended): for every file of logical size `L`
(`Stat().Size()`, the size `cacheFile` actually partitions) and every
`threadCount ≥ 1`, warming the file with no I/O error yields a
cumulative `TotalBytesRead` of at least `L`; segment-boundary overlap
can only over-count bytes, never under-count them.  The original claim
measured the guarantee against the allocated size `Blocks * 512`, which
exceeds the logical size for any file whose length is not a multiple of
the block size, and the bound fails there. -/
theorem C1_bytes_read_cover_logical_size (chunkSize threads : ℕ) (f : FileMeta)
    (hc : 1 ≤ chunkSize) (ht : 1 ≤ threads) :
    f.size ≤ cacheFile chunkSize threads f.size :=
  cacheFile_ge_size chunkSize threads f.size hc ht

/-- Witness for C1: a 3-byte file, chunk size 1, two threads. -/
theorem C1_witness : 1 ≤ 1 ∧ 1 ≤ 2 ∧ FileMeta.size ⟨3, 8⟩ ≤ cacheFile 1 2 (FileMeta.size ⟨3, 8⟩) :=
  ⟨le_rfl, by omega, C1_bytes_read_cover_logical_size 1 2 ⟨3, 8⟩ le_rfl (by omega)⟩

/-- Claim C2: `cacheFile` forces the thread count to 1 when
`fileSize < chunkSize * threads`; otherwise it keeps it.  With the
effective thread count `t` and `segmentSize = fileSize / t` (integer
division), thread 0 starts at 0, every other thread `i` starts
`min(segmentSize/20, 1 MiB)` bytes before its nominal boundary
`i * segmentSize`, clamped at 0, every thread but the last ends at
`(i+1) * segmentSize`, and the last thread ends at `fileSize`,
absorbing the division remainder. -/
theorem C2_partition_shape (chunkSize threads fileSize : ℕ) (_ht : 1 ≤ threads) :
    (fileSize < chunkSize * threads → effThreads chunkSize threads fileSize = 1) ∧
    (¬ fileSize < chunkSize * threads → effThreads chunkSize threads fileSize = threads) ∧
    segStart fileSize (effThreads chunkSize threads fileSize) 0 = 0 ∧
    (∀ i, 0 < i →
      (segStart fileSize (effThreads chunkSize threads fileSize) i : ℤ) =
        max 0 ((i : ℤ) * (segmentSize fileSize (effThreads chunkSize threads fileSize) : ℤ) -
          min ((segmentSize fileSize (effThreads chunkSize threads fileSize) : ℤ) / 20)
            1048576)) ∧
    (∀ i, i + 1 < effThreads chunkSize threads fileSize →
      segEnd fileSize (effThreads chunkSize threads fileSize) i =
        (i + 1) * segmentSize fileSize (effThreads chunkSize threads fileSize)) ∧
    segEnd fileSize (effThreads chunkSize threads fileSize)
      (effThreads chunkSize threads fileSize - 1) = fileSize := by
  refine ⟨fun h => ?_, fun h => ?_, ?_, fun i hi => ?_, fun i hi => ?_, ?_⟩
  · unfold effThreads
    rw [if_pos h]
  · unfold effThreads
    rw [if_neg h]
  · unfold segStart
    rw [if_pos rfl]
  · unfold segStart overlapSize
    rw [if_neg (by omega)]
    have hcast : (i : ℤ) * (segmentSize fileSize (effThreads chunkSize threads fileSize) : ℤ) =
        ((i * segmentSize fileSize (effThreads chunkSize threads fileSize) : ℕ) : ℤ) := by
      push_cast
      ring
    rw [hcast]
    generalize (i * segmentSize fileSize (effThreads chunkSize threads fileSize) : ℕ) = a
    generalize (segmentSize fileSize (effThreads chunkSize threads fileSize) : ℕ) = s
    omega
  · unfold segEnd
    rw [if_pos (by omega)]
  · unfold segEnd
    rw [if_neg (by omega)]

/-- Witness for C2: chunk size 1, two threads, a 100-byte file. -/
theorem C2_witness : 1 ≤ 2 ∧
    (¬ (100 : ℕ) < 1 * 2 → effThreads 1 2 100 = 2) ∧
    ((segStart 100 (effThreads 1 2 100) 1 : ℤ) =
      max 0 ((1 : ℤ) * (segmentSize 100 (effThreads 1 2 100) : ℤ) -
        min ((segmentSize 100 (effThreads 1 2 100) : ℤ) / 20) 1048576)) ∧
    segEnd 100 (effThreads 1 2 100) (effThreads 1 2 100 - 1) = 100 :=
  ⟨by omega, (C2_partition_shape 1 2 100 (by omega)).2.1,
    (C2_partition_shape 1 2 100 (by omega)).2.2.2.1 1 (by omega),
    (C2_partition_shape 1 2 100 (by omega)).2.2.2.2.2⟩

/-- Claim C8: the per-thread ranges `[segStart i, segEnd i)` computed in
`cacheFile` for the effective thread count jointly cover every byte
offset of the file: the nominal ranges tile `[0, fileSize)` and the
start-side overlap only extends coverage leftwards. -/
theorem C8_segments_cover (chunkSize threads fileSize x : ℕ)
    (ht : 1 ≤ threads) (hx : x < fileSize) :
    ∃ i < effThreads chunkSize threads fileSize,
      segStart fileSize (effThreads chunkSize threads fileSize) i ≤ x ∧
      x < segEnd fileSize (effThreads chunkSize threads fileSize) i := by
  have ht1 : 1 ≤ effThreads chunkSize threads fileSize := by
    unfold effThreads
    split_ifs <;> omega
  set t := effThreads chunkSize threads fileSize with hteq
  by_cases hs0 : segmentSize fileSize t = 0
  · refine ⟨t - 1, by omega, ?_, ?_⟩
    · have hnom := segStart_le_nominal fileSize t (t - 1)
      rw [hs0, Nat.mul_zero] at hnom
      omega
    · unfold segEnd
      rw [if_neg (by omega)]
      exact hx
  · have hspos : 0 < segmentSize fileSize t := by omega
    refine ⟨min (x / segmentSize fileSize t) (t - 1), by omega, ?_, ?_⟩
    · have hC : min (x / segmentSize fileSize t) (t - 1) * segmentSize fileSize t ≤
          x / segmentSize fileSize t * segmentSize fileSize t :=
        Nat.mul_le_mul_right _ (min_le_left _ _)
      have hA : x / segmentSize fileSize t * segmentSize fileSize t ≤ x :=
        Nat.div_mul_le_self x _
      have := segStart_le_nominal fileSize t (min (x / segmentSize fileSize t) (t - 1))
      omega
    · by_cases hlt : min (x / segmentSize fileSize t) (t - 1) < t - 1
      · have hq : min (x / segmentSize fileSize t) (t - 1) = x / segmentSize fileSize t := by
          rcases le_total (x / segmentSize fileSize t) (t - 1) with hle | hle
          · exact min_eq_left hle
          · rw [min_eq_right hle] at hlt ⊢
            omega
        unfold segEnd
        rw [if_pos hlt, hq]
        exact (Nat.div_lt_iff_lt_mul hspos).mp (Nat.lt_succ_self _)
      · unfold segEnd
        rw [if_neg hlt]
        exact hx

/-- Witness for C8: a 10-byte file, two threads, offset 7 is covered. -/
theorem C8_witness : 1 ≤ 2 ∧ (7 : ℕ) < 10 ∧
    ∃ i < effThreads 1 2 10,
      segStart 10 (effThreads 1 2 10) i ≤ 7 ∧ 7 < segEnd 10 (effThreads 1 2 10) i :=
  ⟨by omega, by omega, C8_segments_cover 1 2 10 7 (by omega) (by omega)⟩

/-! ## Helper lemmas: the directory walk -/

/-- One callback invocation never decreases the running total and keeps
every stored cache size non-negative. -/
theorem visitEntry_prop (now : ℕ) (p : String) (info : Option ℕ) (s : WalkSt) :
    s.total ≤ (visitEntry now p info s).total ∧
      (CacheInv s.cache → CacheInv (visitEntry now p info s).cache) := by
  simp only [visitEntry]
  split_ifs with h
  · exact ⟨le_add_of_nonneg_right h, fun hi => hi⟩
  · cases info with
    | none => exact ⟨le_rfl, fun hi => hi⟩
    | some blocks =>
      refine ⟨le_add_of_nonneg_right (Int.natCast_nonneg _), fun hi e he => ?_⟩
      rcases List.mem_cons.mp he with rfl | he'
      · exact Int.natCast_nonneg _
      · exact hi e he'

/-- The walk of a directory listing never decreases the running total
and keeps every stored cache size non-negative. -/
theorem walkList_prop (now : ℕ) (base : String) (l : FSList) (s : WalkSt) :
    s.total ≤ (walkList now base l s).total ∧
      (CacheInv s.cache → CacheInv (walkList now base l s).cache) := by
  cases l with
  | nil =>
    rw [walkList]
    exact ⟨le_rfl, fun hi => hi⟩
  | cons n t rest =>
    cases t with
    | file st? =>
      rw [walkList]
      have h1 := visitEntry_prop now (base ++ "/" ++ n) (Option.map Stat.blocks st?) s
      have h2 := walkList_prop now base rest
        (visitEntry now (base ++ "/" ++ n) (Option.map Stat.blocks st?) s)
      exact ⟨le_trans h1.1 h2.1, fun hi => h2.2 (h1.2 hi)⟩
    | dir ok ch =>
      rw [walkList]
      have h1 := visitEntry_prop now (base ++ "/" ++ n) none s
      have h2 := walkList_prop now (base ++ "/" ++ n) ch
        (visitEntry now (base ++ "/" ++ n) none s)
      have h3 := walkList_prop now base rest
        (walkList now (base ++ "/" ++ n) ch (visitEntry now (base ++ "/" ++ n) none s))
      exact ⟨le_trans h1.1 (le_trans h2.1 h3.1), fun hi => h3.2 (h2.2 (h1.2 hi))⟩
termination_by sizeOf l

/-- `walkNode` inherits both walk properties. -/
theorem walkNode_prop (now : ℕ) (p : String) (t : FSTree) (s : WalkSt) :
    s.total ≤ (walkNode now p t s).total ∧
      (CacheInv s.cache → CacheInv (walkNode now p t s).cache) := by
  cases t with
  | file st? =>
    rw [walkNode]
    exact visitEntry_prop now p _ s
  | dir ok ch =>
    rw [walkNode]
    have h1 := visitEntry_prop now p none s
    have h2 := walkList_prop now p ch (visitEntry now p none s)
    exact ⟨le_trans h1.1 h2.1, fun hi => h2.2 (h1.2 hi)⟩

/-- `calculateSize` never returns a negative size. -/
theorem calculateSize_nonneg (fs : String → Option FSTree) (now : ℕ) (p : String)
    (cache : List (String × SizeCache)) : 0 ≤ (calculateSize fs now p cache).1 := by
  unfold calculateSize
  split
  · exact le_rfl
  · exact le_rfl
  · exact Int.natCast_nonneg _
  · exact le_rfl
  · exact (walkNode_prop now p _ ⟨0, cache⟩).1

/-- `calculateSize` keeps every stored cache size non-negative. -/
theorem calculateSize_inv (fs : String → Option FSTree) (now : ℕ) (p : String)
    (cache : List (String × SizeCache)) (hi : CacheInv cache) :
    CacheInv (calculateSize fs now p cache).2 := by
  unfold calculateSize
  split
  · exact hi
  · exact hi
  · exact hi
  · exact hi
  · exact (walkNode_prop now p _ ⟨0, cache⟩).2 hi

/-- Walking a concatenated listing is walking the first part, then the
second from the resulting state. -/
theorem walkList_append (now : ℕ) (base : String) (l1 l2 : FSList) (s : WalkSt) :
    walkList now base (fslAppend l1 l2) s = walkList now base l2 (walkList now base l1 s) := by
  cases l1 with
  | nil =>
    rw [fslAppend, walkList]
  | cons n t rest =>
    cases t with
    | file st? =>
      rw [fslAppend, walkList, walkList, walkList_append now base rest l2]
    | dir ok ch =>
      rw [fslAppend, walkList, walkList, walkList_append now base rest l2]
termination_by sizeOf l1

/-- Claim C5: for a plain (non-directory) file, `calculateSize` returns
`Blocks * 512` — the allocated on-disk size — independently of the
file's logical length, and writes nothing to the cache. -/
theorem C5_plain_file_allocated_size (fs : String → Option FSTree) (now : ℕ) (p : String)
    (cache : List (String × SizeCache)) (st : Stat)
    (hfs : fs p = some (.file (some st))) :
    calculateSize fs now p cache = ((st.blocks : ℤ) * 512, cache) := by
  simp only [calculateSize, hfs]
  rfl

/-- Witness for C5: a sparse file of logical length 1 GiB occupying 8
blocks reports 4096 bytes, not 1073741824. -/
theorem C5_witness :
    fsSparse "/s" = some (.file (some ⟨1073741824, 8⟩)) ∧
    calculateSize fsSparse 0 "/s" [] = (4096, []) ∧ (4096 : ℤ) ≠ 1073741824 := by
  refine ⟨rfl, ?_, by decide⟩
  have h := C5_plain_file_allocated_size fsSparse 0 "/s" [] ⟨1073741824, 8⟩ rfl
  rw [h]
  norm_num

/-- Claim C6: during a directory walk, an entry whose `syscall.Stat`
fails (and which has no fresh cache entry) contributes zero to the total
and does not abort the walk — the state after walking the listing with
the failing entry equals the state after walking the listing without
it, so the sum over all remaining entries is still computed. -/
theorem C6_stat_failure_contributes_zero (now : ℕ) (base nm : String)
    (l1 l2 : FSList) (s : WalkSt)
    (hmiss : checkCache (walkList now base l1 s).cache (base ++ "/" ++ nm) now < 0) :
    walkList now base (fslAppend l1 (.cons nm (.file none) l2)) s =
      walkList now base (fslAppend l1 l2) s := by
  rw [walkList_append, walkList_append, walkList]
  congr 1
  simp only [visitEntry, Option.map_none']
  rw [if_neg (not_le.mpr hmiss)]

/-- Witness for C6: in a listing `a, x, b` where the stat of `x` fails,
the walk result equals that of the listing `a, b`. -/
theorem C6_witness :
    checkCache (walkList 0 "/d" fsl1 ⟨0, []⟩).cache ("/d" ++ "/" ++ "x") 0 < 0 ∧
    walkList 0 "/d" (fslAppend fsl1 (.cons "x" (.file none) fsl2)) ⟨0, []⟩ =
      walkList 0 "/d" (fslAppend fsl1 fsl2) ⟨0, []⟩ := by
  have hmiss : checkCache (walkList 0 "/d" fsl1 ⟨0, []⟩).cache ("/d" ++ "/" ++ "x") 0 < 0 := by
    decide
  exact ⟨hmiss, C6_stat_failure_contributes_zero 0 "/d" "x" fsl1 fsl2 ⟨0, []⟩ hmiss⟩

/-- Claim C9: `GetAllocatedSize` never fails at its interface.  When
`filepath.Abs` fails it returns 0 without touching cache or filesystem;
when the root stat fails it returns 0, memoizes that 0 under the
5-minute TTL, and a later call within the TTL returns the memoized 0
without re-statting. -/
theorem C9_never_fails (abs : String → Option String) (fs : String → Option FSTree)
    (t1 t2 : ℕ) (cache : List (String × SizeCache)) (p ap : String) :
    (abs p = none → GetAllocatedSize abs fs t1 cache p = (0, cache, false)) ∧
    (abs p = some ap → fs ap = none → checkCache cache ap t1 < 0 → t2 - t1 < maxAge →
      GetAllocatedSize abs fs t1 cache p = (0, (ap, ⟨0, t1⟩) :: cache, true) ∧
      GetAllocatedSize abs fs t2 ((ap, ⟨0, t1⟩) :: cache) p =
        (0, (ap, ⟨0, t1⟩) :: cache, false)) := by
  constructor
  · intro habs
    simp only [GetAllocatedSize, habs]
  · intro habs hfs hmiss hfresh
    constructor
    · simp only [GetAllocatedSize, habs]
      rw [if_neg (not_le.mpr hmiss)]
      simp only [calculateSize, hfs]
    · have hcc : checkCache ((ap, ⟨0, t1⟩) :: cache) ap t2 = 0 := by
        simp only [checkCache, List.lookup, beq_self_eq_true]
        rw [if_pos hfresh]
      simp only [GetAllocatedSize, habs, hcc]
      norm_num

/-- Witness for C9: a path on which every stat fails, called at times 0
and 1. -/
theorem C9_witness :
    absSame "/gone" = some "/gone" ∧ fsGone "/gone" = none ∧
    checkCache [] "/gone" 0 < 0 ∧ (1 : ℕ) - 0 < maxAge ∧
    GetAllocatedSize absSame fsGone 0 [] "/gone" = (0, [("/gone", ⟨0, 0⟩)], true) ∧
    GetAllocatedSize absSame fsGone 1 [("/gone", ⟨0, 0⟩)] "/gone" =
      (0, [("/gone", ⟨0, 0⟩)], false) := by
  refine ⟨rfl, rfl, by decide, by decide, ?_, ?_⟩
  · exact ((C9_never_fails absSame fsGone 0 1 [] "/gone" "/gone").2 rfl rfl (by decide)
      (by decide)).1
  · exact ((C9_never_fails absSame fsGone 0 1 [] "/gone" "/gone").2 rfl rfl (by decide)
      (by decide)).2

/-- A successful association-list lookup comes from a member of the
list. -/
theorem lookup_mem {β : Type} (l : List (String × β)) (a : String) (b : β)
    (h : List.lookup a l = some b) : (a, b) ∈ l := by
  induction l with
  | nil => simp [List.lookup] at h
  | cons x xs ih =>
    obtain ⟨k, v⟩ := x
    rw [List.lookup] at h
    rcases hbe : a == k with _ | _
    · rw [hbe] at h
      exact List.mem_cons_of_mem _ (ih h)
    · rw [hbe] at h
      rw [Option.some_inj] at h
      have hk : a = k := by
        have := eq_of_beq hbe
        exact this
      rw [← hk, ← h]
      exact List.mem_cons_self _ _

/-- Claim C10: every size the sizer ever stores is non-negative —
`calculateSize` returns a non-negative total and preserves the cache
invariant, `GetAllocatedSize` preserves it, and under the invariant
`checkCache`'s `-1` unambiguously means "no fresh entry" (a stored size
can never collide with the sentinel). -/
theorem C10_sentinel_unambiguous :
    (∀ (fs : String → Option FSTree) (now : ℕ) (p : String) (cache : List (String × SizeCache)),
      CacheInv cache →
        0 ≤ (calculateSize fs now p cache).1 ∧ CacheInv (calculateSize fs now p cache).2) ∧
    (∀ (abs : String → Option String) (fs : String → Option FSTree) (now : ℕ)
      (cache : List (String × SizeCache)) (path : String),
      CacheInv cache → CacheInv (GetAllocatedSize abs fs now cache path).2.1) ∧
    (∀ (cache : List (String × SizeCache)) (p : String) (now : ℕ),
      CacheInv cache →
        (checkCache cache p now = -1 ↔
          ∀ e, List.lookup p cache = some e → ¬ (now - e.timestamp < maxAge))) := by
  refine ⟨fun fs now p cache hi => ⟨calculateSize_nonneg fs now p cache,
    calculateSize_inv fs now p cache hi⟩, ?_, ?_⟩
  · intro abs fs now cache path hi
    rcases habs : abs path with _ | ap
    · simp only [GetAllocatedSize, habs]
      exact hi
    · simp only [GetAllocatedSize, habs]
      split_ifs with h
      · exact hi
      · intro e he
        rcases List.mem_cons.mp he with rfl | he'
        · exact calculateSize_nonneg fs now ap cache
        · exact calculateSize_inv fs now ap cache hi e he'
  · intro cache p now hi
    unfold checkCache
    rcases hlu : List.lookup p cache with _ | e
    · simp
    · have hmem : (p, e) ∈ cache := lookup_mem cache p e hlu
      have hnn : 0 ≤ e.size := hi (p, e) hmem
      dsimp only
      split_ifs with hfr
      · constructor
        · intro h
          omega
        · intro h
          exact absurd hfr (h e rfl)
      · constructor
        · intro _ e' he'
          rw [Option.some_inj] at he'
          rw [← he']
          exact hfr
        · intro _
          rfl

/-- Witness for C10: the invariant holds for the empty cache and is
preserved through a concrete `calculateSize` and `GetAllocatedSize`
call. -/
theorem C10_witness :
    CacheInv [] ∧
    (0 ≤ (calculateSize fsOld 0 "/a" []).1 ∧ CacheInv (calculateSize fsOld 0 "/a" []).2) ∧
    CacheInv (GetAllocatedSize absSame fsOld 0 [] "/a").2.1 ∧
    (checkCache [] "/x" 0 = -1 ↔
      ∀ e, List.lookup "/x" ([] : List (String × SizeCache)) = some e →
        ¬ ((0 : ℕ) - e.timestamp < maxAge)) := by
  have hinv : CacheInv [] := by
    intro e he
    cases he
  exact ⟨hinv, C10_sentinel_unambiguous.1 fsOld 0 "/a" [] hinv,
    C10_sentinel_unambiguous.2.1 absSame fsOld 0 [] "/a" hinv,
    C10_sentinel_unambiguous.2.2 [] "/x" 0 hinv⟩

/-- Claim C4, counterexample to the claim as stated: the cache holds the
entry written at time 0 for `/a` (512 bytes, from `fsOld`); the file
then grows (`fsNew`, 1024 allocated bytes) before the two calls under
scrutiny.  The two calls — at 299999999999 ns and 300000000001 ns, 2 ns
apart, with the path untouched between them — return different values
(512 then 1024), and the second call re-stats the filesystem: the
5-minute TTL is anchored at the entry's write time, not at the first of
the two calls. -/
theorem C4_counterexample :
    (GetAllocatedSize absSame fsNew 299999999999 stAfterFirst "/a").1 = 512 ∧
    (GetAllocatedSize absSame fsNew 299999999999 stAfterFirst "/a").2.2 = false ∧
    (GetAllocatedSize absSame fsNew 300000000001 stAfterFirst "/a").1 = 1024 ∧
    (GetAllocatedSize absSame fsNew 300000000001 stAfterFirst "/a").2.2 = true ∧
    (300000000001 : ℕ) - 299999999999 < maxAge := by
  decide

/-- Claim C4 (amended): `GetAllocatedSize` is idempotent within the TTL
of the memo entry: when a call at `t1` misses the cache (and therefore
computes and stores the value with timestamp `t1`), any second call with
`t2 - t1` under 5 minutes returns the identical value, leaves the cache
unchanged, and performs no filesystem stat.  The original claim anchored
the window at the first of the two calls; when the first call is served
from an older entry that expires between the calls, the second call
re-stats and — if the path changed earlier, outside the two-call window —
may return a different value. -/
theorem C4_idempotent_within_ttl (abs : String → Option String) (fs : String → Option FSTree)
    (t1 t2 : ℕ) (cache : List (String × SizeCache)) (p ap : String)
    (habs : abs p = some ap) (hmiss : checkCache cache ap t1 < 0) (hfresh : t2 - t1 < maxAge) :
    (GetAllocatedSize abs fs t1 cache p).2.2 = true ∧
    GetAllocatedSize abs fs t2 (GetAllocatedSize abs fs t1 cache p).2.1 p =
      ((GetAllocatedSize abs fs t1 cache p).1, (GetAllocatedSize abs fs t1 cache p).2.1,
        false) := by
  have h1 : GetAllocatedSize abs fs t1 cache p =
      ((calculateSize fs t1 ap cache).1,
        (ap, ⟨(calculateSize fs t1 ap cache).1, t1⟩) :: (calculateSize fs t1 ap cache).2,
        true) := by
    simp only [GetAllocatedSize, habs]
    rw [if_neg (not_le.mpr hmiss)]
  rw [h1]
  refine ⟨rfl, ?_⟩
  have hcc : checkCache
      ((ap, ⟨(calculateSize fs t1 ap cache).1, t1⟩) :: (calculateSize fs t1 ap cache).2) ap t2 =
      (calculateSize fs t1 ap cache).1 := by
    simp only [checkCache, List.lookup, beq_self_eq_true]
    rw [if_pos hfresh]
  simp only [GetAllocatedSize, habs, hcc]
  rw [if_pos (calculateSize_nonneg fs t1 ap cache)]

/-- Witness for C4: a miss at time 0 on `/a`, then a hit at time 1. -/
theorem C4_witness :
    absSame "/a" = some "/a" ∧ checkCache [] "/a" 0 < 0 ∧ (1 : ℕ) - 0 < maxAge ∧
    (GetAllocatedSize absSame fsOld 0 [] "/a").2.2 = true ∧
    GetAllocatedSize absSame fsOld 1 (GetAllocatedSize absSame fsOld 0 [] "/a").2.1 "/a" =
      ((GetAllocatedSize absSame fsOld 0 [] "/a").1,
        (GetAllocatedSize absSame fsOld 0 [] "/a").2.1, false) := by
  refine ⟨rfl, by decide, by decide, ?_, ?_⟩
  · exact (C4_idempotent_within_ttl absSame fsOld 0 1 [] "/a" "/a" rfl (by decide) (by decide)).1
  · exact (C4_idempotent_within_ttl absSame fsOld 0 1 [] "/a" "/a" rfl (by decide) (by decide)).2

/-- Claim C3: when a live (not yet deleted) job exists under the
resolved source root, a second start request whose request path resolves
— via `filepath.Join` with the mount path — to the same root fails with
`AlreadyInProgress` and neither creates nor replaces a job: the active
map is returned unchanged. -/
theorem C3_duplicate_start_rejected (mountPath req1 req2 : String) (statOk : String → Bool)
    (totalSize : ℤ) (active : List (String × CacheProgress)) (j : CacheProgress)
    (hres : joinPath mountPath req1 = joinPath mountPath req2)
    (hlive : List.lookup (joinPath mountPath req1) active = some j) :
    handlePrecache mountPath statOk totalSize active req2 = (active, .alreadyInProgress) := by
  simp only [handlePrecache]
  rw [← hres, hlive]
  rfl

/-- Witness for C3: `a/./b` and `a//b` both resolve to `/mnt/a/b`, where
a job is live; the second request is rejected and the map unchanged. -/
theorem C3_witness :
    joinPath "/mnt" "a/./b" = joinPath "/mnt" "a//b" ∧
    List.lookup (joinPath "/mnt" "a/./b") [("/mnt/a/b", newProgress 7)] =
      some (newProgress 7) ∧
    handlePrecache "/mnt" (fun _ => true) 7 [("/mnt/a/b", newProgress 7)] "a//b" =
      ([("/mnt/a/b", newProgress 7)], .alreadyInProgress) := by
  refine ⟨by decide, by decide, ?_⟩
  exact C3_duplicate_start_rejected "/mnt" "a/./b" "a//b" (fun _ => true) 7
    [("/mnt/a/b", newProgress 7)] (newProgress 7) (by decide) (by decide)

/-- The retention loop of `updateSpeed` computes the filter of the
window list and the sum of the retained byte counts. -/
theorem collectWindows_foldl (cutoff : ℤ) (ws : List SpeedWindow) :
    ∀ acc : List SpeedWindow × ℤ,
      ws.foldl (fun acc w =>
        if cutoff < w.timestamp then (acc.1 ++ [w], acc.2 + w.bytesRead) else acc) acc =
      (acc.1 ++ ws.filter (fun w => cutoff < w.timestamp),
        acc.2 + ((ws.filter (fun w => cutoff < w.timestamp)).map SpeedWindow.bytesRead).sum) := by
  induction ws with
  | nil =>
    intro acc
    simp
  | cons w rest ih =>
    intro acc
    rw [List.foldl_cons, List.filter_cons]
    by_cases h : cutoff < w.timestamp
    · simp [h, ih, add_assoc]
    · simp [h, ih]

/-- `collectWindows` in closed form. -/
theorem collectWindows_eq (cutoff : ℤ) (ws : List SpeedWindow) :
    collectWindows cutoff ws =
      (ws.filter (fun w => cutoff < w.timestamp),
        ((ws.filter (fun w => cutoff < w.timestamp)).map SpeedWindow.bytesRead).sum) := by
  have h := collectWindows_foldl cutoff ws ([], 0)
  simpa [collectWindows] using h

/-- `timeRange = Seconds(now - t) > 0` exactly when `now - t > 0`. -/
theorem timeRange_pos (a : ℤ) : 0 < ((a : ℚ) / 1000000000) ↔ 0 < a := by
  constructor
  · intro h
    by_contra hn
    push_neg at hn
    have h1 : (a : ℚ) ≤ 0 := by exact_mod_cast hn
    have h2 : (a : ℚ) / 1000000000 ≤ 0 :=
      div_nonpos_of_nonpos_of_nonneg h1 (by norm_num)
    linarith
  · intro h
    apply div_pos
    · exact_mod_cast h
    · norm_num


/-- Claim C7: one `updateSpeed(bytesDelta, now)` call with
`bytesDelta ≥ 0` (and a state whose stored deltas are non-negative and
whose throughput is non-negative, as every reachable state is) appends
the observation `{bytesDelta, now}`, retains exactly the observations
strictly newer than `now - 5s`, recomputes the throughput as the sum of
retained deltas over the span back to the oldest retained observation
whenever that span is positive — leaving it unchanged otherwise — and
never produces a negative throughput. -/
theorem C7_sliding_window_throughput (cp : CacheProgress) (delta currentTime : ℤ)
    (hd : 0 ≤ delta) (hw : ∀ w ∈ cp.speedWindows, 0 ≤ w.bytesRead)
    (hs : 0 ≤ cp.currentSpeed) :
    (updateSpeed cp delta currentTime).speedWindows = retainedWindows cp delta currentTime ∧
    (∀ w ∈ (updateSpeed cp delta currentTime).speedWindows,
      currentTime - 5000000000 < w.timestamp ∧ 0 ≤ w.bytesRead) ∧
    (updateSpeed cp delta currentTime).currentSpeed =
      (match retainedWindows cp delta currentTime with
        | [] => cp.currentSpeed
        | w0 :: _ =>
          if 0 < currentTime - w0.timestamp then
            (((retainedWindows cp delta currentTime).map SpeedWindow.bytesRead).sum : ℚ) /
              (((currentTime - w0.timestamp : ℤ) : ℚ) / 1000000000)
          else cp.currentSpeed) ∧
    0 ≤ (updateSpeed cp delta currentTime).currentSpeed := by
  have hall : ∀ w ∈ cp.speedWindows ++ [SpeedWindow.mk delta currentTime],
      0 ≤ w.bytesRead := by
    intro w hw'
    rcases List.mem_append.mp hw' with h | h
    · exact hw w h
    · rw [List.mem_singleton.mp h]
      exact hd
  simp only [updateSpeed, collectWindows_eq, retainedWindows]
  refine ⟨trivial, ?_, ?_, ?_⟩
  · intro w hmem
    exact ⟨by simpa using List.of_mem_filter hmem, hall w (List.mem_of_mem_filter hmem)⟩
  · rcases hfl : (cp.speedWindows ++ [SpeedWindow.mk delta currentTime]).filter
        (fun w => currentTime - 5000000000 < w.timestamp) with _ | ⟨w0, rest⟩
    · rw [hfl]
    · rw [hfl]
      dsimp only
      by_cases hpos : 0 < currentTime - w0.timestamp
      · rw [if_pos ((timeRange_pos _).mpr hpos), if_pos hpos]
      · rw [if_neg fun hc => hpos ((timeRange_pos _).mp hc), if_neg hpos]
  · rcases hfl : (cp.speedWindows ++ [SpeedWindow.mk delta currentTime]).filter
        (fun w => currentTime - 5000000000 < w.timestamp) with _ | ⟨w0, rest⟩
    · rw [hfl]
      exact hs
    · rw [hfl]
      dsimp only
      by_cases hpos : 0 < currentTime - w0.timestamp
      · rw [if_pos ((timeRange_pos _).mpr hpos)]
        apply div_nonneg
        · have hsum : 0 ≤ ((w0 :: rest).map SpeedWindow.bytesRead).sum := by
            apply List.sum_nonneg
            intro x hx
            rcases List.mem_map.mp hx with ⟨w, hwm, rfl⟩
            have hwf : w ∈ (cp.speedWindows ++ [SpeedWindow.mk delta currentTime]).filter
                (fun w => currentTime - 5000000000 < w.timestamp) := by
              rw [hfl]
              exact hwm
            exact hall w (List.mem_of_mem_filter hwf)
          exact_mod_cast hsum
        · exact le_of_lt ((timeRange_pos _).mpr hpos)
      · rw [if_neg fun hc => hpos ((timeRange_pos _).mp hc)]
        exact hs

/-- Witness for C7: state with one prior window, a 5-byte delta one
second later; the recomputed throughput is 7 bytes over the 1-second
span. -/
theorem C7_witness :
    (0 : ℤ) ≤ 5 ∧
    (∀ w ∈ [(⟨2, 9000000000⟩ : SpeedWindow)], (0 : ℤ) ≤ w.bytesRead) ∧
    (0 : ℚ) ≤ 3 ∧
    (updateSpeed ⟨3, 0, 0, false, 0, [⟨2, 9000000000⟩]⟩ 5 10000000000).speedWindows =
      [⟨2, 9000000000⟩, ⟨5, 10000000000⟩] ∧
    0 ≤ (updateSpeed ⟨3, 0, 0, false, 0, [⟨2, 9000000000⟩]⟩ 5 10000000000).currentSpeed := by
  refine ⟨by decide, by decide, by norm_num, by decide, ?_⟩
  exact (C7_sliding_window_throughput ⟨3, 0, 0, false, 0, [⟨2, 9000000000⟩]⟩ 5 10000000000
    (by decide) (by decide) (by norm_num)).2.2.2
